import Mathlib

/-!
# Verification of the Dropbox interactive CLI explorer

A shallow embedding of `dropBoxCLI.py`. The remote Dropbox file tree is
modelled as an inductive tree of entries (folders carry their children and a
success flag for the `files_list_folder` call; files carry name, display path
and size; `other` stands for any metadata variant that is neither a folder nor
a file, e.g. deleted entries). Python floats reached by `format_file_size` are
modelled as exact rationals: every byte count divided by powers of 1024 is a
dyadic rational that binary floating point represents exactly. Printing is
modelled by returning the would-be log lines.
-/

namespace DropBoxCLI

/-! ## Python string primitives used by `os.path` -/

/-- Index of the last occurrence of `c` in `l` (Python `str.rfind`, as an
`Option` instead of `-1`). -/
def lastIdxOf (c : Char) : List Char → Option Nat
  | [] => none
  | a :: l =>
    match lastIdxOf c l with
    | some i => some (i + 1)
    | none => if a = c then some 0 else none

/-- Python `str.rfind`: last index of `c`, or `-1` when absent. -/
def pyRfind (c : Char) (l : List Char) : Int :=
  match lastIdxOf c l with
  | some i => (i : Int)
  | none => -1

/-- Python `str.rstrip('/')` on a character list: drop trailing slashes. -/
def rstripSlash (l : List Char) : List Char :=
  (l.reverse.dropWhile (· = '/')).reverse

/-- `posixpath.splitext`: split a path into `(root, ext)`. The extension
starts at the last dot, provided that dot comes after the last `/` and some
non-dot character stands between them (so purely leading dots of the basename
never begin an extension). -/
def splitext (p : List Char) : List Char × List Char :=
  let sepIndex := pyRfind '/' p
  let dotIndex := pyRfind '.' p
  if sepIndex < dotIndex then
    if ((p.drop (sepIndex + 1).toNat).take (dotIndex - (sepIndex + 1)).toNat).any
        (fun c => c ≠ '.') then
      (p.take dotIndex.toNat, p.drop dotIndex.toNat)
    else
      (p, [])
  else
    (p, [])

/-- `posixpath.dirname`: everything before the final `/`, with trailing
slashes stripped unless the head consists only of slashes. -/
def dirname (p : List Char) : List Char :=
  let i := pyRfind '/' p + 1
  let head := p.take i.toNat
  if head ≠ [] ∧ head ≠ List.replicate head.length '/' then
    rstripSlash head
  else
    head

/-- `os.path.dirname` on Lean strings. -/
def dirnameStr (s : String) : String :=
  ⟨dirname s.data⟩

/-! ## `format_file_size` (source lines 14–20)

The running magnitude is an exact rational: integer byte counts below `2^53`
are exact IEEE doubles and division by `1024.0` only shifts the exponent, so
the rational model computes the very numbers the Python floats hold. -/

/-- Round to the nearest integer, ties to the even integer — the rounding
IEEE formatting applies when printing with `:.1f`. -/
def roundHalfEven (q : ℚ) : ℤ :=
  let f := ⌊q⌋
  let r := q - f
  if r < 1 / 2 then f
  else if 1 / 2 < r then f + 1
  else if f % 2 = 0 then f else f + 1

/-- Python `f"{x:.1f}"` for the non-negative magnitudes produced here: the
value rounded to one fractional digit, ties to even. -/
def fmt1f (q : ℚ) : String :=
  let m := roundHalfEven (10 * q)
  toString (m / 10) ++ "." ++ toString (m % 10)

/-- The `for unit in [...]` loop body of `format_file_size`. -/
def formatLoop : ℚ → List String → String
  | size_bytes, [] => fmt1f size_bytes ++ " PB"
  | size_bytes, unit :: units =>
    if size_bytes < 1024 then fmt1f size_bytes ++ " " ++ unit
    else formatLoop (size_bytes / 1024) units

/-- `format_file_size`: walk the unit list `B, KB, MB, GB, TB`, dividing by
1024 until the magnitude drops below 1024, falling through to `PB`. -/
def format_file_size (size_bytes : ℚ) : String :=
  formatLoop size_bytes ["B", "KB", "MB", "GB", "TB"]

/-- Closed form following the spec's words: pick the first unit whose
threshold the byte count is below, and show `size/1024^k` with that unit. -/
def format_file_size_spec (b : ℚ) : String :=
  if b < 1024 then fmt1f b ++ " B"
  else if b < 1024 ^ 2 then fmt1f (b / 1024) ++ " KB"
  else if b < 1024 ^ 3 then fmt1f (b / 1024 ^ 2) ++ " MB"
  else if b < 1024 ^ 4 then fmt1f (b / 1024 ^ 3) ++ " GB"
  else if b < 1024 ^ 5 then fmt1f (b / 1024 ^ 4) ++ " TB"
  else fmt1f (b / 1024 ^ 5) ++ " PB"

/-! ## The remote file tree

`dropbox.files.FolderMetadata` / `FileMetadata` / anything else (e.g.
`DeletedMetadata`) become the three variants below. A folder carries the
listing the remote API would return for its `path_lower`; `ok = false` means
`files_list_folder` raises `dropbox.exceptions.ApiError` with text `err` for
that path. -/

/-- A remote entry as the Dropbox SDK returns it. -/
inductive RemoteEntry where
  | folder (name path_lower err : String) (ok : Bool) (children : List RemoteEntry)
  | file (name path_display : String) (size : Nat)
  | other

/-- `isinstance(e, dropbox.files.FolderMetadata)`. -/
def isFolder : RemoteEntry → Bool
  | .folder _ _ _ _ _ => true
  | _ => false

/-- `isinstance(e, dropbox.files.FileMetadata)`. -/
def isFile : RemoteEntry → Bool
  | .file _ _ _ => true
  | _ => false

/-- `e.name`. -/
def entryName : RemoteEntry → String
  | .folder n _ _ _ _ => n
  | .file n _ _ => n
  | .other => ""

/-- `e.path_lower` for folders (files expose `path_display` here). -/
def entryPathLower : RemoteEntry → String
  | .folder _ p _ _ _ => p
  | .file _ p _ => p
  | .other => ""

/-- `f.size` for file entries. -/
def entrySize : RemoteEntry → Nat
  | .file _ _ s => s
  | _ => 0

/-- Number of folder nodes in the subtree rooted at an entry (the entry
itself included when it is a folder). -/
def entryFolderCount : RemoteEntry → Nat
  | .folder _ _ _ _ children => 1 + (children.attach.map (fun c => entryFolderCount c.1)).sum
  | _ => 0
decreasing_by
  simp_wf
  have := List.sizeOf_lt_of_mem c.2
  omega

/-- Every folder in the subtree lists successfully. -/
def entryAllOk : RemoteEntry → Bool
  | .folder _ _ _ ok children => ok && children.attach.all (fun c => entryAllOk c.1)
  | _ => true
decreasing_by
  simp_wf
  have := List.sizeOf_lt_of_mem c.2
  omega

/-- Python `str.lower()` of an (ASCII) name, as its code-point sequence. -/
def pyLower (s : String) : List Char :=
  s.data.map Char.toLower

/-- Comparison key of `sorted(..., key=lambda e: e.name.lower())`: Python's
stable sort keeps `a` before `b` exactly when `a`'s key does not exceed
`b`'s in the code-point lexicographic order. -/
def entryLe (a b : RemoteEntry) : Bool :=
  decide (pyLower (entryName a) ≤ pyLower (entryName b))

/-- `print(f"Error accessing {path}: {err}")`. -/
def errAccessMsg (path err : String) : String :=
  "Error accessing " ++ path ++ ": " ++ err

/-- `print(f"Error getting stats for {path}: {err}")`. -/
def errStatsMsg (path err : String) : String :=
  "Error getting stats for " ++ path ++ ": " ++ err

/-! ## `list_folder_contents` (source lines 22–51) -/

/-- Everything `list_folder_contents` produces: the returned partitions, the
entries actually displayed, the "... and N more items" report, and the log
lines printed. -/
structure ListResult where
  folders : List RemoteEntry
  files : List RemoteEntry
  shown : List RemoteEntry
  more : Option Nat
  logs : List String

/-- `list_folder_contents(dbx, path, max_items)`. `fetch` is the outcome of
the `dbx.files_list_folder(path).entries` call at the head of the `try`. -/
def list_folder_contents (path : String) (fetch : Except String (List RemoteEntry))
    (max_items : Nat := 50) : ListResult :=
  match fetch with
  | .ok entries =>
    let folders := (entries.filter isFolder).mergeSort entryLe
    let files := (entries.filter isFile).mergeSort entryLe
    let all_entries := folders ++ files
    let shown_entries := all_entries.take max_items
    { folders := folders, files := files, shown := shown_entries,
      more := if all_entries.length > max_items then some (all_entries.length - max_items)
              else none,
      logs := [] }
  | .error err =>
    { folders := [], files := [], shown := [], more := none,
      logs := [errAccessMsg path err] }

/-! ## `get_folder_stats` (source lines 53–73) -/

/-- The dict `get_folder_stats` returns: counts on success, the
`{"error": str(err)}` marker on an `ApiError`. -/
inductive StatsResult where
  | ok (folders files total_size : Nat) (total_size_formatted : String)
  | error (msg : String)

/-- `get_folder_stats(dbx, path)` together with the log lines it prints. -/
def get_folder_stats (path : String) (fetch : Except String (List RemoteEntry)) :
    StatsResult × List String :=
  match fetch with
  | .ok entries =>
    let folders := entries.filter isFolder
    let files := entries.filter isFile
    let total_size := (files.map entrySize).sum
    (.ok folders.length files.length total_size (format_file_size (total_size : ℚ)), [])
  | .error err => (.error err, [errStatsMsg path err])

/-! ## `get_detailed_stats` (source lines 191–252) -/

/-- One element of `stats["largest_files"]`. -/
structure FileInfo where
  name : String
  path : String
  size : Nat
  size_formatted : String

/-- The mutable `stats` dict during the traversal (`file_types` is a
`Counter`, i.e. an insertion-ordered map). -/
structure DetailedStats where
  total_folders : Nat
  total_files : Nat
  total_size : Nat
  file_types : List (String × Nat)
  largest_files : List FileInfo

/-- `Counter.__getitem__ += 1`: increment the count of `k`, inserting it at
the end when absent. -/
def bump (m : List (String × Nat)) (k : String) : List (String × Nat) :=
  match m with
  | [] => [(k, 1)]
  | (k', v) :: rest => if k' = k then (k', v + 1) :: rest else (k', v) :: bump rest k

/-- `os.path.splitext(entry.name.lower())[1]` followed by the
`if file_ext / else "no_extension"` choice of histogram key. -/
def fileExtKey (name : String) : String :=
  let file_ext : String := ⟨(splitext (pyLower name)).2⟩
  if file_ext ≠ "" then file_ext else "no_extension"

/-- `sorted(..., key=lambda x: x["size"], reverse=True)`: Python's stable
descending sort keeps `a` before `b` exactly when `a` is at least as big. -/
def largestLe (a b : FileInfo) : Bool :=
  decide (b.size ≤ a.size)

/-- Append the new file record, re-sort descending by size, keep the first
ten (source lines 238–241). -/
def updateLargest (l : List FileInfo) (fi : FileInfo) : List FileInfo :=
  ((l ++ [fi]).mergeSort largestLe).take 10

/-- A queued folder: its `path_lower` plus what `files_list_folder` will
answer for it (error text, success flag, children). -/
def QFolder : Type := String × String × Bool × List RemoteEntry

/-- `q.path_lower`. -/
def QFolder.path (q : QFolder) : String := q.1

/-- Whether listing the queued folder succeeds. -/
def QFolder.ok (q : QFolder) : Bool := q.2.2.1

/-- The queued folder's children. -/
def QFolder.children (q : QFolder) : List RemoteEntry := q.2.2.2

/-- `str(err)` of the `ApiError` the queued folder's fetch would raise. -/
def QFolder.errText (q : QFolder) : String := q.2.1

/-- The queue entry a discovered child folder turns into (only the
`path_lower` is enqueued in the source; the error text, flag and children
stand for what `files_list_folder` will answer for that path). -/
def toQFolder (path_lower err : String) (ok : Bool)
    (children : List RemoteEntry) : QFolder :=
  (path_lower, err, ok, children)

/-- The `for entry in entries` body (source lines 215–241): update the stats
and append discovered folders to the queue additions. -/
def processEntry (acc : DetailedStats × List QFolder) (e : RemoteEntry) :
    DetailedStats × List QFolder :=
  match e with
  | .folder _ path_lower err ok children =>
    ({ acc.1 with total_folders := acc.1.total_folders + 1 },
      acc.2 ++ [toQFolder path_lower err ok children])
  | .file name path_display size =>
    let s := acc.1
    let file_ext : String := ⟨(splitext (pyLower name)).2⟩
    ({ s with
        total_files := s.total_files + 1,
        total_size := s.total_size + size,
        file_types := if file_ext ≠ "" then bump s.file_types file_ext
                      else bump s.file_types "no_extension",
        largest_files := updateLargest s.largest_files
          ⟨name, path_display, size, format_file_size (size : ℚ)⟩ },
      acc.2)
  | .other => acc

/-- Process one successfully fetched listing. -/
def processListing (s : DetailedStats) (entries : List RemoteEntry) :
    DetailedStats × List QFolder :=
  entries.foldl processEntry (s, [])

/-- The `while folders_to_process and processed_count < 1000` loop (source
lines 208–244); the fuel argument equals `1000 - processed_count`. A folder
whose fetch fails only logs and leaves the stats untouched. -/
def detailedLoop : Nat → DetailedStats → List QFolder → Nat → List String →
    DetailedStats × List QFolder × Nat × List String
  | 0, s, q, p, logs => (s, q, p, logs)
  | _ + 1, s, [], p, logs => (s, [], p, logs)
  | fuel + 1, s, qf :: rest, p, logs =>
    if qf.ok then
      let (s', adds) := processListing s qf.children
      detailedLoop fuel s' (rest ++ adds) (p + 1) logs
    else
      detailedLoop fuel s rest (p + 1) (logs ++ [errAccessMsg qf.path qf.errText])

/-- The zero/empty initial `stats` dict. -/
def detailedInit : DetailedStats := ⟨0, 0, 0, [], []⟩

/-- What `get_detailed_stats` leaves behind: the final stats, the unprocessed
remainder of the queue, the processed-folder count, whether the
`limited to 1000 folders` note is printed, the formatted total, and logs. -/
structure DetailedResult where
  stats : DetailedStats
  queueLeft : List QFolder
  processed_count : Nat
  limitNote : Bool
  total_size_formatted : String
  logs : List String

/-- `get_detailed_stats(dbx, path)` run on the folder `root`. -/
def get_detailed_stats (root : QFolder) : DetailedResult :=
  let r := detailedLoop 1000 detailedInit [root] 0 []
  { stats := r.1, queueLeft := r.2.1, processed_count := r.2.2.1,
    limitNote := decide (1000 ≤ r.2.2.1),
    total_size_formatted := format_file_size (r.1.total_size : ℚ),
    logs := r.2.2.2 }

/-- Folder-node count of a queued folder's subtree (itself included). -/
def qFolderCount (q : QFolder) : Nat :=
  1 + (q.children.map entryFolderCount).sum

/-- All fetches in the queued folder's subtree succeed. -/
def qAllOk (q : QFolder) : Bool :=
  q.ok && q.children.all entryAllOk

/-! ## The `cd` command of `interactive_explorer` (source lines 161–189) -/

/-- Python `str.isdigit`-free `int(...)` acceptance: ASCII digits with single
interior underscores (`int` also accepts non-ASCII digits, which names here
never use). -/
def digitsU : List Char → Bool
  | [] => false
  | [c] => c.isDigit
  | c :: '_' :: rest => c.isDigit && digitsU rest
  | c :: rest => c.isDigit && digitsU rest

/-- Numeric value of the accepted digit strings. -/
def digitsVal (l : List Char) : Nat :=
  (l.filter (· ≠ '_')).foldl (fun n c => n * 10 + (c.toNat - '0'.toNat)) 0

/-- Python `str.strip()` with no argument: remove leading and trailing
whitespace. -/
def pyStrip (l : List Char) : List Char :=
  ((l.dropWhile Char.isWhitespace).reverse.dropWhile Char.isWhitespace).reverse

/-- Python `int(target)`: strip whitespace, optional sign, digits; `none`
models the `ValueError`. -/
def pyIntParse (s : String) : Option Int :=
  match pyStrip s.data with
  | '+' :: rest => if digitsU rest then some (digitsVal rest) else none
  | '-' :: rest => if digitsU rest then some (-(digitsVal rest : Int)) else none
  | l => if digitsU l then some (digitsVal l) else none

/-- Outcome of one `cd <target>` command: the new `current_path` and the
message printed when navigation failed. -/
structure CdResult where
  current_path : String
  message : Option String

/-- The `elif cmd.startswith("cd ")` branch: `target` is `cmd[3:].strip()`,
`folders` is the folder list of the listing rendered for `current_path`. -/
def cd_step (current_path : String) (folders : List RemoteEntry) (target : String) :
    CdResult :=
  if target = ".." then
    if current_path ≠ "" then ⟨dirnameStr current_path, none⟩
    else ⟨current_path, none⟩
  else
    match pyIntParse target with
    | some n =>
      let index := n - 1
      if 0 ≤ index ∧ index < (folders.length : Int) then
        ⟨entryPathLower (folders.getD index.toNat .other), none⟩
      else
        ⟨current_path, some "Invalid folder number."⟩
    | none =>
      match folders.find? (fun f => pyLower (entryName f) == pyLower target) with
      | some f => ⟨entryPathLower f, none⟩
      | none => ⟨current_path, some ("Folder '" ++ target ++ "' not found.")⟩

/-! ## Lemmas about the size formatter -/

theorem formatLoop_cons (b : ℚ) (u : String) (us : List String) :
    formatLoop b (u :: us) =
      if b < 1024 then fmt1f b ++ " " ++ u else formatLoop (b / 1024) us := rfl

theorem formatLoop_nil (b : ℚ) : formatLoop b [] = fmt1f b ++ " PB" := rfl

theorem fmt1f_int (q : ℚ) (m : ℤ) (h : 10 * q = (m : ℚ)) :
    fmt1f q = toString (m / 10) ++ "." ++ toString (m % 10) := by
  have : roundHalfEven (10 * q) = m := by
    rw [h, roundHalfEven]
    norm_num
  rw [fmt1f, this]

theorem format_file_size_eq_spec (b : ℚ) :
    format_file_size b = format_file_size_spec b := by
  have c : (0:ℚ) < 1024 := by norm_num
  have e2 : b / 1024 / 1024 = b / 1024 ^ 2 := by rw [div_div]; norm_num [pow_succ]
  have e3 : b / 1024 ^ 2 / 1024 = b / 1024 ^ 3 := by rw [div_div]; norm_num [pow_succ]
  have e4 : b / 1024 ^ 3 / 1024 = b / 1024 ^ 4 := by rw [div_div]; norm_num [pow_succ]
  have e5 : b / 1024 ^ 4 / 1024 = b / 1024 ^ 5 := by rw [div_div]; norm_num [pow_succ]
  have g2 : (b / 1024 < 1024) ↔ b < 1024 ^ 2 := by
    rw [div_lt_iff₀ c]; norm_num [pow_succ]
  have g3 : (b / 1024 ^ 2 < 1024) ↔ b < 1024 ^ 3 := by
    rw [div_lt_iff₀ (by positivity : (0:ℚ) < 1024 ^ 2)]; norm_num [pow_succ]
  have g4 : (b / 1024 ^ 3 < 1024) ↔ b < 1024 ^ 4 := by
    rw [div_lt_iff₀ (by positivity : (0:ℚ) < 1024 ^ 3)]; norm_num [pow_succ]
  have g5 : (b / 1024 ^ 4 < 1024) ↔ b < 1024 ^ 5 := by
    rw [div_lt_iff₀ (by positivity : (0:ℚ) < 1024 ^ 4)]; norm_num [pow_succ]
  rw [format_file_size, formatLoop_cons, formatLoop_cons, formatLoop_cons, formatLoop_cons,
    formatLoop_cons, formatLoop_nil, format_file_size_spec]
  simp only [e2, e3, e4, e5, g2, g3, g4, g5]
  have hB : (" " ++ "B" : String) = " B" := rfl
  have hKB : (" " ++ "KB" : String) = " KB" := rfl
  have hMB : (" " ++ "MB" : String) = " MB" := rfl
  have hGB : (" " ++ "GB" : String) = " GB" := rfl
  have hTB : (" " ++ "TB" : String) = " TB" := rfl
  simp only [String.append_assoc, hB, hKB, hMB, hGB, hTB]

/-- C6: `format_file_size` repeatedly divides by 1024 through B, KB, MB, GB,
TB, stops at the first unit whose magnitude is below 1024 (falling through to
PB when all five are exhausted) and prints the magnitude with one fractional
digit and the unit; in particular `format(0) = "0.0 B"`,
`format(1536) = "1.5 KB"`, `format(1048576) = "1.0 MB"` and
`format(1125899906842624) = "1.0 PB"`. -/
theorem format_file_size_correct :
    (∀ b : ℚ, format_file_size b = format_file_size_spec b) ∧
    format_file_size 0 = "0.0 B" ∧
    format_file_size 1536 = "1.5 KB" ∧
    format_file_size 1048576 = "1.0 MB" ∧
    format_file_size 1125899906842624 = "1.0 PB" := by
  refine ⟨format_file_size_eq_spec, ?_, ?_, ?_, ?_⟩
  · rw [format_file_size_eq_spec, format_file_size_spec]
    norm_num
    rw [fmt1f_int 0 0 (by norm_num)]
    decide
  · rw [format_file_size_eq_spec, format_file_size_spec]
    norm_num
    rw [fmt1f_int (3 / 2) 15 (by norm_num)]
    decide
  · rw [format_file_size_eq_spec, format_file_size_spec]
    norm_num
    rw [fmt1f_int 1 10 (by norm_num)]
    decide
  · rw [format_file_size_eq_spec, format_file_size_spec]
    norm_num
    rw [fmt1f_int 1 10 (by norm_num)]
    decide

/-! ## Lemmas about the top-10 largest-files list -/

/-- Size of the smallest tracked file (`0` for an empty list). -/
def minSize (l : List FileInfo) : Nat := ((l.map FileInfo.size).min?).getD 0

theorem largestLe_trans (a b c : FileInfo) (h1 : largestLe a b) (h2 : largestLe b c) :
    largestLe a c := by
  simp only [largestLe, decide_eq_true_eq] at *
  omega

theorem largestLe_total (a b : FileInfo) : largestLe a b || largestLe b a := by
  simp only [largestLe, Bool.or_eq_true, decide_eq_true_eq]
  omega

theorem minSize_spec (l : List FileInfo) (h : l ≠ []) :
    (∃ x ∈ l, x.size = minSize l) ∧ (∀ x ∈ l, minSize l ≤ x.size) := by
  have hne : l.map FileInfo.size ≠ [] := by simpa using h
  cases ha : (l.map FileInfo.size).min? with
  | none => exact absurd (List.min?_eq_none_iff.mp ha) hne
  | some a =>
    have hm := List.min?_eq_some_iff'.mp ha
    have hmin : minSize l = a := by simp [minSize, ha]
    obtain ⟨x, hx, hxa⟩ := List.mem_map.mp hm.1
    refine ⟨⟨x, hx, by omega⟩, ?_⟩
    intro y hy
    have := hm.2 y.size (List.mem_map_of_mem _ hy)
    omega

/-- C3: after every insertion the largest-files list has at most 10 entries
and is sorted descending by size; when the list is full and the inserted file
is larger than its minimum, a minimum-size entry is the one evicted (the
result plus that entry is a permutation of the old list plus the new file). -/
theorem updateLargest_invariant (l : List FileInfo) (fi : FileInfo) :
    (updateLargest l fi).length ≤ 10 ∧
    (updateLargest l fi).Pairwise (fun a b => largestLe a b = true) ∧
    (l.length = 10 → minSize l < fi.size →
      ∃ x, x.size = minSize l ∧ (updateLargest l fi ++ [x]).Perm (l ++ [fi])) := by
  refine ⟨?_, ?_, ?_⟩
  · exact List.length_take_le _ _
  · exact ((List.sorted_mergeSort largestLe_trans largestLe_total _).sublist
      (List.take_sublist _ _))
  · intro hlen hmin
    have hnil : l ≠ [] := by intro h; rw [h] at hlen; simp at hlen
    obtain ⟨hex, hall⟩ := minSize_spec l hnil
    have hperm : List.Perm ((l ++ [fi]).mergeSort largestLe) (l ++ [fi]) :=
      List.mergeSort_perm _ _
    have hlen11 : ((l ++ [fi]).mergeSort largestLe).length = 11 := by
      simp [List.length_mergeSort, hlen]
    have hsorted : ((l ++ [fi]).mergeSort largestLe).Pairwise
        (fun a b => largestLe a b = true) :=
      List.sorted_mergeSort largestLe_trans largestLe_total _
    have hsplit : ((l ++ [fi]).mergeSort largestLe).take 10 ++
        ((l ++ [fi]).mergeSort largestLe).drop 10 = (l ++ [fi]).mergeSort largestLe :=
      List.take_append_drop _ _
    have hdlen : (((l ++ [fi]).mergeSort largestLe).drop 10).length = 1 := by
      simp [hlen11]
    obtain ⟨x, hx⟩ := List.length_eq_one.mp hdlen
    have hxmem : x ∈ l ++ [fi] := by
      refine hperm.subset ?_
      have : x ∈ ((l ++ [fi]).mergeSort largestLe).drop 10 := by simp [hx]
      exact List.mem_of_mem_drop this
    have hlow : minSize l ≤ x.size := by
      rcases List.mem_append.mp hxmem with h | h
      · exact hall x h
      · simp at h
        rw [h]
        omega
    have hpw : (((l ++ [fi]).mergeSort largestLe).take 10).Pairwise
          (fun a b => largestLe a b = true) ∧
        ∀ a ∈ ((l ++ [fi]).mergeSort largestLe).take 10,
          ∀ b ∈ ((l ++ [fi]).mergeSort largestLe).drop 10, largestLe a b = true := by
      have := hsplit ▸ hsorted
      have h2 := List.pairwise_append.mp this
      exact ⟨h2.1, h2.2.2⟩
    have hup : x.size ≤ minSize l := by
      obtain ⟨y, hy, hysize⟩ := hex
      have hymem : y ∈ ((l ++ [fi]).mergeSort largestLe).take 10 ++
          ((l ++ [fi]).mergeSort largestLe).drop 10 := by
        rw [hsplit]
        exact hperm.mem_iff.mpr (List.mem_append.mpr (Or.inl hy))
      rcases List.mem_append.mp hymem with h | h
      · have := hpw.2 y h x (by simp [hx])
        simp only [largestLe, decide_eq_true_eq] at this
        omega
      · rw [hx] at h
        simp at h
        rw [← h]
        omega
    refine ⟨x, by omega, ?_⟩
    have : updateLargest l fi ++ [x] = (l ++ [fi]).mergeSort largestLe := by
      rw [updateLargest, ← hx, hsplit]
    rw [this]
    exact hperm

/-- A full top-10 list, sizes 10 down to 1, for the witness below. -/
def witnessTop10 : List FileInfo :=
  [⟨"f10", "/f10", 10, ""⟩, ⟨"f9", "/f9", 9, ""⟩, ⟨"f8", "/f8", 8, ""⟩,
   ⟨"f7", "/f7", 7, ""⟩, ⟨"f6", "/f6", 6, ""⟩, ⟨"f5", "/f5", 5, ""⟩,
   ⟨"f4", "/f4", 4, ""⟩, ⟨"f3", "/f3", 3, ""⟩, ⟨"f2", "/f2", 2, ""⟩,
   ⟨"f1", "/f1", 1, ""⟩]

/-- A new file bigger than the minimum of `witnessTop10`. -/
def witnessNewFile : FileInfo := ⟨"big", "/big", 11, ""⟩

/-- C3 witness: the hypotheses of `updateLargest_invariant` hold at a
concrete full list and larger file. -/
theorem updateLargest_invariant_witness :
    witnessTop10.length = 10 ∧ minSize witnessTop10 < witnessNewFile.size ∧
    ∃ x, x.size = minSize witnessTop10 ∧
      (updateLargest witnessTop10 witnessNewFile ++ [x]).Perm
        (witnessTop10 ++ [witnessNewFile]) :=
  ⟨by decide, by decide,
    (updateLargest_invariant witnessTop10 witnessNewFile).2.2 (by decide) (by decide)⟩

/-! ## Lemmas about the listing sort and truncation -/

theorem entryLe_trans (a b c : RemoteEntry) (h1 : entryLe a b) (h2 : entryLe b c) :
    entryLe a c := by
  simp only [entryLe, decide_eq_true_eq] at *
  exact le_trans h1 h2

theorem entryLe_total (a b : RemoteEntry) : entryLe a b || entryLe b a := by
  simp only [entryLe, Bool.or_eq_true, decide_eq_true_eq]
  exact le_total _ _

/-- C7: the listing view puts the sorted folders before the sorted files:
both partitions are sorted ascending by case-insensitive name, contain
exactly the folder (resp. file) entries, and the displayed list is a prefix
of folders-then-files; file names `["b.txt", "A.txt"]` come out as
`["A.txt", "b.txt"]`. -/
theorem list_folder_contents_sorted :
    (∀ (path : String) (entries : List RemoteEntry) (max_items : Nat),
      ((list_folder_contents path (.ok entries) max_items).folders).Pairwise
          (fun a b => entryLe a b = true) ∧
      ((list_folder_contents path (.ok entries) max_items).files).Pairwise
          (fun a b => entryLe a b = true) ∧
      (list_folder_contents path (.ok entries) max_items).folders.Perm
          (entries.filter isFolder) ∧
      (list_folder_contents path (.ok entries) max_items).files.Perm
          (entries.filter isFile) ∧
      (list_folder_contents path (.ok entries) max_items).shown =
        ((list_folder_contents path (.ok entries) max_items).folders ++
          (list_folder_contents path (.ok entries) max_items).files).take max_items) ∧
    ((list_folder_contents "" (.ok [.file "b.txt" "/b.txt" 3, .file "A.txt" "/A.txt" 7])
        50).files.map entryName = ["A.txt", "b.txt"]) := by
  constructor
  · intro path entries max_items
    refine ⟨?_, ?_, ?_, ?_, rfl⟩
    · exact List.sorted_mergeSort entryLe_trans entryLe_total _
    · exact List.sorted_mergeSort entryLe_trans entryLe_total _
    · exact List.mergeSort_perm _ entryLe
    · exact List.mergeSort_perm _ entryLe
  · simp [list_folder_contents, List.mergeSort, List.merge, entryLe, entryName, isFile,
      isFolder, List.filter, pyLower]
    decide

/-- C8: with `max_items = N` over `M` listed entries, the view shows exactly
`N` entries and reports `M - N` more when `M > N`, and shows all `M` with no
overflow report when `M ≤ N`. -/
theorem list_folder_contents_truncation (path : String) (entries : List RemoteEntry)
    (max_items : Nat) :
    (max_items < (entries.filter isFolder).length + (entries.filter isFile).length →
      (list_folder_contents path (.ok entries) max_items).shown.length = max_items ∧
      (list_folder_contents path (.ok entries) max_items).more =
        some ((entries.filter isFolder).length + (entries.filter isFile).length -
          max_items)) ∧
    ((entries.filter isFolder).length + (entries.filter isFile).length ≤ max_items →
      (list_folder_contents path (.ok entries) max_items).shown.length =
        (entries.filter isFolder).length + (entries.filter isFile).length ∧
      (list_folder_contents path (.ok entries) max_items).more = none) := by
  simp only [list_folder_contents]
  have hlen : ((entries.filter isFolder).mergeSort entryLe ++
      (entries.filter isFile).mergeSort entryLe).length =
      (entries.filter isFolder).length + (entries.filter isFile).length := by
    simp [List.length_append, List.length_mergeSort]
  constructor
  · intro h
    constructor
    · simp only [List.length_take, hlen]
      omega
    · simp only [hlen]
      rw [if_pos (by omega)]
  · intro h
    constructor
    · simp only [List.length_take, hlen]
      omega
    · simp only [hlen]
      rw [if_neg (by omega)]

/-- C8 witness: both truncation regimes at a concrete three-file listing. -/
theorem list_folder_contents_truncation_witness :
    ((2 < 3 ∧
        (list_folder_contents "" (.ok [.file "a" "/a" 1, .file "b" "/b" 2, .file "c" "/c" 3])
          2).shown.length = 2 ∧
        (list_folder_contents "" (.ok [.file "a" "/a" 1, .file "b" "/b" 2, .file "c" "/c" 3])
          2).more = some 1) ∧
      (3 ≤ 5 ∧
        (list_folder_contents "" (.ok [.file "a" "/a" 1, .file "b" "/b" 2, .file "c" "/c" 3])
          5).shown.length = 3 ∧
        (list_folder_contents "" (.ok [.file "a" "/a" 1, .file "b" "/b" 2, .file "c" "/c" 3])
          5).more = none)) := by
  constructor
  · have h := (list_folder_contents_truncation ""
      [.file "a" "/a" 1, .file "b" "/b" 2, .file "c" "/c" 3] 2).1 (by decide)
    exact ⟨by decide, h.1, h.2⟩
  · have h := (list_folder_contents_truncation ""
      [.file "a" "/a" 1, .file "b" "/b" 2, .file "c" "/c" 3] 5).2 (by decide)
    exact ⟨by decide, h.1, h.2⟩

/-! ## Lemmas about the bounded breadth-first traversal -/

theorem entryFolderCount_folder (n p e : String) (ok : Bool) (cs : List RemoteEntry) :
    entryFolderCount (.folder n p e ok cs) = 1 + (cs.map entryFolderCount).sum := by
  rw [entryFolderCount]
  congr 1
  rw [List.attach_map_coe]

theorem entryAllOk_folder (n p e : String) (ok : Bool) (cs : List RemoteEntry) :
    entryAllOk (.folder n p e ok cs) = (ok && cs.all entryAllOk) := by
  rw [entryAllOk]
  congr 1
  rw [Bool.eq_iff_iff]
  simp only [List.all_eq_true, List.mem_attach, true_implies, Subtype.forall]

/-- The stats update of the file branch of the entry loop. -/
def fileUpdate (s : DetailedStats) (name path_display : String) (size : Nat) :
    DetailedStats :=
  { s with
    total_files := s.total_files + 1,
    total_size := s.total_size + size,
    file_types := if (⟨(splitext (pyLower name)).2⟩ : String) ≠ "" then
        bump s.file_types ⟨(splitext (pyLower name)).2⟩
      else bump s.file_types "no_extension",
    largest_files := updateLargest s.largest_files
      ⟨name, path_display, size, format_file_size (size : ℚ)⟩ }

theorem processEntry_folder (s : DetailedStats) (q : List QFolder) (n p e : String)
    (ok : Bool) (cs : List RemoteEntry) :
    processEntry (s, q) (.folder n p e ok cs) =
      ({ s with total_folders := s.total_folders + 1 }, q ++ [toQFolder p e ok cs]) := rfl

theorem processEntry_file (s : DetailedStats) (q : List QFolder) (n p : String) (size : Nat) :
    processEntry (s, q) (.file n p size) = (fileUpdate s n p size, q) := rfl

theorem processEntry_other (s : DetailedStats) (q : List QFolder) :
    processEntry (s, q) .other = (s, q) := rfl

/-- Folding the entry loop over any queue accumulator splits into the stats
from an empty accumulator plus the appended discoveries. -/
theorem foldl_pe (es : List RemoteEntry) : ∀ (s : DetailedStats) (acc : List QFolder),
    es.foldl processEntry (s, acc) =
      ((es.foldl processEntry (s, [])).1, acc ++ (es.foldl processEntry (s, [])).2) := by
  induction es with
  | nil => intro s acc; simp
  | cons e es ih =>
    intro s acc
    cases e with
    | folder n p er ok cs =>
      simp only [List.foldl_cons, processEntry_folder, List.nil_append]
      rw [ih _ (acc ++ [toQFolder p er ok cs]), ih _ [toQFolder p er ok cs]]
      simp
    | file n p size =>
      simp only [List.foldl_cons, processEntry_file]
      rw [ih _ acc, ih _ []]
    | other =>
      simp only [List.foldl_cons, processEntry_other]
      exact ih s acc

/-- Folder nodes represented in the pending queue. -/
def queueFolders (q : List QFolder) : Nat := (q.map qFolderCount).sum

theorem queueFolders_append (a b : List QFolder) :
    queueFolders (a ++ b) = queueFolders a + queueFolders b := by
  simp [queueFolders]

/-- A listing's queue additions carry exactly the folder nodes of its child
subtrees: each discovered folder is enqueued exactly once. -/
theorem processListing_count (es : List RemoteEntry) : ∀ s : DetailedStats,
    queueFolders (processListing s es).2 = (es.map entryFolderCount).sum := by
  induction es with
  | nil => intro s; rfl
  | cons e es ih =>
    intro s
    cases e with
    | folder n p er ok cs =>
      simp only [processListing, List.foldl_cons, processEntry_folder, List.nil_append]
      rw [foldl_pe]
      rw [queueFolders_append]
      have := ih ({ s with total_folders := s.total_folders + 1 })
      simp only [processListing] at this
      rw [this]
      simp only [List.map_cons, List.sum_cons, entryFolderCount_folder]
      have hq : queueFolders [toQFolder p er ok cs] = 1 + (cs.map entryFolderCount).sum := by
        simp [queueFolders, qFolderCount, QFolder.children, toQFolder]
      omega
    | file n p size =>
      simp only [processListing, List.foldl_cons, processEntry_file]
      have := ih (fileUpdate s n p size)
      simp only [processListing] at this
      rw [this]
      simp [entryFolderCount]
    | other =>
      simp only [processListing, List.foldl_cons, processEntry_other]
      have := ih s
      simp only [processListing] at this
      rw [this]
      simp [entryFolderCount]

theorem processListing_allOk (es : List RemoteEntry) : ∀ s : DetailedStats,
    es.all entryAllOk = true → (processListing s es).2.all qAllOk = true := by
  induction es with
  | nil => intro s _; rfl
  | cons e es ih =>
    intro s h
    simp only [List.all_cons, Bool.and_eq_true] at h
    cases e with
    | folder n p er ok cs =>
      simp only [processListing, List.foldl_cons, processEntry_folder, List.nil_append]
      rw [foldl_pe]
      simp only [List.all_append]
      have h1 : ([toQFolder p er ok cs] : List QFolder).all qAllOk = true := by
        simp only [List.all_cons, List.all_nil, Bool.and_true]
        rw [entryAllOk_folder] at h
        simpa [qAllOk, QFolder.ok, QFolder.children, toQFolder] using h.1
      have h2 := ih ({ s with total_folders := s.total_folders + 1 }) h.2
      simp only [processListing] at h2
      simp [h1, h2]
    | file n p size =>
      simp only [processListing, List.foldl_cons, processEntry_file]
      have := ih (fileUpdate s n p size) h.2
      simp only [processListing] at this
      exact this
    | other =>
      simp only [processListing, List.foldl_cons, processEntry_other]
      exact ih s h.2

/-- The loop never performs more iterations than it has fuel. -/
theorem detailedLoop_processed_le (fuel : Nat) : ∀ (s : DetailedStats) (q : List QFolder)
    (p : Nat) (logs : List String), (detailedLoop fuel s q p logs).2.2.1 ≤ p + fuel := by
  induction fuel with
  | zero => intro s q p logs; simp [detailedLoop]
  | succ fuel ih =>
    intro s q p logs
    match q with
    | [] => simp [detailedLoop]
    | qf :: rest =>
      rw [detailedLoop]
      by_cases h : qf.ok
      · rw [if_pos h]
        calc (detailedLoop fuel (processListing s qf.children).1
                (rest ++ (processListing s qf.children).2) (p + 1) logs).2.2.1
            ≤ (p + 1) + fuel := ih _ _ _ _
          _ = p + (fuel + 1) := by omega
      · rw [if_neg h]
        calc (detailedLoop fuel s rest (p + 1)
                (logs ++ [errAccessMsg qf.path qf.errText])).2.2.1
            ≤ (p + 1) + fuel := ih _ _ _ _
          _ = p + (fuel + 1) := by omega

/-- On an all-successful queue, the loop performs exactly
`min fuel (pending folder nodes)` iterations: FIFO traversal visits every
folder of the queued subtrees once unless it runs out of fuel first. -/
theorem detailedLoop_processed_eq (fuel : Nat) : ∀ (s : DetailedStats) (q : List QFolder)
    (p : Nat) (logs : List String), q.all qAllOk = true →
    (detailedLoop fuel s q p logs).2.2.1 = p + min fuel (queueFolders q) := by
  induction fuel with
  | zero => intro s q p logs _; simp [detailedLoop]
  | succ fuel ih =>
    intro s q p logs hok
    match q with
    | [] => simp [detailedLoop, queueFolders]
    | qf :: rest =>
      simp only [List.all_cons, Bool.and_eq_true] at hok
      have hqok : qf.ok = true := by
        have := hok.1
        simp only [qAllOk, Bool.and_eq_true] at this
        exact this.1
      have hcok : qf.children.all entryAllOk = true := by
        have := hok.1
        simp only [qAllOk, Bool.and_eq_true] at this
        exact this.2
      rw [detailedLoop, if_pos hqok]
      have hadds : (processListing s qf.children).2.all qAllOk = true :=
        processListing_allOk _ _ hcok
      have hall : (rest ++ (processListing s qf.children).2).all qAllOk = true := by
        simp [List.all_append, hok.2, hadds]
      rw [ih _ _ _ _ hall]
      rw [queueFolders_append, processListing_count]
      simp only [queueFolders, List.map_cons, List.sum_cons]
      have : qFolderCount qf = 1 + (qf.children.map entryFolderCount).sum := by
        simp [qFolderCount]
      omega

/-- Shared bound: the traversal never processes more than 1000 folders. -/
theorem processed_count_le (root : QFolder) :
    (get_detailed_stats root).processed_count ≤ 1000 := by
  have := detailedLoop_processed_le 1000 detailedInit [root] 0 []
  simpa [get_detailed_stats] using this

/-- C2: the capped breadth-first traversal processes at most 1000 folders on
any input, and on a fully fetchable tree with more than 1000 folders it
processes exactly 1000 before halting. -/
theorem get_detailed_stats_cap (root : QFolder) :
    (get_detailed_stats root).processed_count ≤ 1000 ∧
    (qAllOk root = true → 1000 < qFolderCount root →
      (get_detailed_stats root).processed_count = 1000) := by
  constructor
  · exact processed_count_le root
  · intro hok hcnt
    have hall : ([root] : List QFolder).all qAllOk = true := by simp [hok]
    have := detailedLoop_processed_eq 1000 detailedInit [root] 0 [] hall
    have hq : queueFolders [root] = qFolderCount root := by simp [queueFolders]
    rw [hq] at this
    have hmin : min 1000 (qFolderCount root) = 1000 := by omega
    rw [hmin] at this
    simpa [get_detailed_stats] using this

/-- A linear chain of folders, deep enough to exceed the traversal cap. -/
def chainEntry : Nat → RemoteEntry
  | 0 => .folder "f" "/f" "" true []
  | n + 1 => .folder "f" "/f" "" true [chainEntry n]

/-- A queued root folder whose subtree is `chainEntry n` (so `n + 2` folder
nodes in total). -/
def chainQ (n : Nat) : QFolder := ("", "", true, [chainEntry n])

theorem chainEntry_count (n : Nat) : entryFolderCount (chainEntry n) = n + 1 := by
  induction n with
  | zero => rw [chainEntry, entryFolderCount_folder]; simp
  | succ n ih => rw [chainEntry, entryFolderCount_folder]; simp [ih]; omega

theorem chainEntry_allOk (n : Nat) : entryAllOk (chainEntry n) = true := by
  induction n with
  | zero => rw [chainEntry, entryAllOk_folder]; simp
  | succ n ih => rw [chainEntry, entryAllOk_folder]; simp [ih]

theorem chainQ_count (n : Nat) : qFolderCount (chainQ n) = n + 2 := by
  simp [chainQ, qFolderCount, QFolder.children, chainEntry_count]
  omega

theorem chainQ_allOk (n : Nat) : qAllOk (chainQ n) = true := by
  simp [chainQ, qAllOk, QFolder.ok, QFolder.children, chainEntry_allOk]

/-- C2 witness: a 1202-folder chain satisfies both hypotheses and is cut off
at exactly 1000 processed folders. -/
theorem get_detailed_stats_cap_witness :
    qAllOk (chainQ 1200) = true ∧ 1000 < qFolderCount (chainQ 1200) ∧
    (get_detailed_stats (chainQ 1200)).processed_count = 1000 :=
  ⟨chainQ_allOk 1200, by rw [chainQ_count]; omega,
    (get_detailed_stats_cap (chainQ 1200)).2 (chainQ_allOk 1200)
      (by rw [chainQ_count]; omega)⟩

set_option maxRecDepth 10000 in
/-- C4 counterexample: on a tree of exactly 1000 folders the queue empties
(the whole subtree is processed), yet the `limited to 1000 folders` note is
still printed — the note is not equivalent to `cap hit with work left`. -/
theorem detailed_note_counterexample :
    (get_detailed_stats (chainQ 998)).queueLeft.length = 0 ∧
    (get_detailed_stats (chainQ 998)).limitNote = true := by
  constructor
  · decide
  · decide

/-- C4 amended: the partial note is printed exactly when the processed count
reached 1000 — also in the boundary run that consumed its whole queue at
exactly 1000 folders. -/
theorem detailed_note_iff (root : QFolder) :
    (get_detailed_stats root).limitNote = true ↔
      (get_detailed_stats root).processed_count = 1000 := by
  have hle := processed_count_le root
  simp only [get_detailed_stats, decide_eq_true_eq] at *
  omega

/-! ## Lemmas about the histogram key (`os.path.splitext`) -/

theorem lastIdxOf_eq_none_iff (c : Char) (l : List Char) :
    lastIdxOf c l = none ↔ c ∉ l := by
  induction l with
  | nil => simp [lastIdxOf]
  | cons a l ih =>
    rw [lastIdxOf]
    cases hl : lastIdxOf c l with
    | some j =>
      have hmem : c ∈ l := by
        by_contra hn
        rw [ih.mpr hn] at hl
        exact Option.noConfusion hl
      simp [hmem]
    | none =>
      have hnm : c ∉ l := ih.mp hl
      by_cases hac : a = c
      · simp [hac]
      · simp [hac, hnm]
        exact fun h => hac h.symm

/-- The index found by `rfind` carries the last occurrence: everything after
it is free of `c`. -/
theorem lastIdxOf_spec (c : Char) (l : List Char) (i : Nat) (h : lastIdxOf c l = some i) :
    ∃ pre post, l = pre ++ c :: post ∧ pre.length = i ∧ c ∉ post := by
  induction l generalizing i with
  | nil => exact Option.noConfusion h
  | cons a l ih =>
    rw [lastIdxOf] at h
    cases hl : lastIdxOf c l with
    | some j =>
      rw [hl] at h
      simp only [Option.some.injEq] at h
      obtain ⟨pre, post, h1, h2, h3⟩ := ih j hl
      refine ⟨a :: pre, post, by simp [h1], ?_, h3⟩
      simp [h2]
      omega
    | none =>
      rw [hl] at h
      simp only [] at h
      by_cases hac : a = c
      · rw [if_pos hac] at h
        refine ⟨[], l, by simp [hac], by simpa using h,
          lastIdxOf_eq_none_iff c l |>.mp hl⟩
      · rw [if_neg hac] at h
        exact Option.noConfusion h

/-- The extension returned by `splitext` is empty, or a suffix of the input
that starts at the final dot (it begins with a dot and contains no further
dot). -/
theorem splitext_snd (p : List Char) :
    (splitext p).2 = [] ∨
    ((splitext p).2.head? = some '.' ∧ '.' ∉ (splitext p).2.tail ∧
      ∃ stem, p = stem ++ (splitext p).2) := by
  cases hd : lastIdxOf '.' p with
  | none =>
    left
    have hdot : pyRfind '.' p = -1 := by simp only [pyRfind, hd]
    have hlt : ¬ (pyRfind '/' p < pyRfind '.' p) := by
      rw [hdot]
      simp only [pyRfind]
      cases lastIdxOf '/' p with
      | none => simp
      | some j => simp; omega
    simp only [splitext]
    rw [if_neg hlt]
  | some d =>
    by_cases hlt : pyRfind '/' p < pyRfind '.' p
    · by_cases hany : ((p.drop (pyRfind '/' p + 1).toNat).take
          (pyRfind '.' p - (pyRfind '/' p + 1)).toNat).any (fun c => c ≠ '.')
      · right
        have hext : (splitext p).2 = p.drop d := by
          simp only [splitext]
          rw [if_pos hlt, if_pos hany]
          simp [pyRfind, hd]
        obtain ⟨pre, post, h1, h2, h3⟩ := lastIdxOf_spec '.' p d hd
        have hdrop : p.drop d = '.' :: post := by
          rw [h1, ← h2]
          exact List.drop_left _ _
        refine ⟨?_, ?_, ?_⟩
        · rw [hext, hdrop]; rfl
        · rw [hext, hdrop]; exact h3
        · exact ⟨p.take d, by rw [hext]; exact (List.take_append_drop d p).symm⟩
      · left
        simp only [splitext]
        rw [if_pos hlt, if_neg hany]
    · left
      simp only [splitext]
      rw [if_neg hlt]

/-- C5: the traversal's file step bumps the histogram at `fileExtKey name`;
the key is either the `no_extension` sentinel or the lower-cased suffix of
the name from its final dot; `"README"` keys to `"no_extension"` and
`"Archive.TAR.GZ"` to `".gz"`. -/
theorem histogram_key_correct :
    (∀ (s : DetailedStats) (q : List QFolder) (n p : String) (size : Nat),
      (processEntry (s, q) (.file n p size)).1.file_types =
        bump s.file_types (fileExtKey n)) ∧
    (∀ name : String, fileExtKey name = "no_extension" ∨
      ((fileExtKey name).data.head? = some '.' ∧ '.' ∉ (fileExtKey name).data.tail ∧
        ∃ stem : List Char, pyLower name = stem ++ (fileExtKey name).data)) ∧
    fileExtKey "README" = "no_extension" ∧
    fileExtKey "Archive.TAR.GZ" = ".gz" := by
  refine ⟨?_, ?_, by decide, by decide⟩
  · intro s q n p size
    rw [processEntry_file]
    simp only [fileUpdate, fileExtKey]
    by_cases h : (⟨(splitext (pyLower n)).2⟩ : String) ≠ ""
    · rw [if_pos h, if_pos h]
    · rw [if_neg h, if_neg h]
  · intro name
    rcases splitext_snd (pyLower name) with h | ⟨h1, h2, h3⟩
    · left
      simp [fileExtKey, h]
    · right
      have hne : (⟨(splitext (pyLower name)).2⟩ : String) ≠ "" := by
        intro hh
        have : (splitext (pyLower name)).2 = [] := by
          have := congrArg String.data hh
          simpa using this
        rw [this] at h1
        exact Option.noConfusion h1
      have hkey : fileExtKey name = ⟨(splitext (pyLower name)).2⟩ := by
        simp only [fileExtKey]
        rw [if_pos hne]
      rw [hkey]
      exact ⟨h1, h2, h3⟩

/-! ## Error degradation and exclusion of non-folder, non-file entries -/

/-- C9: remote-API failures degrade instead of propagating: the listing
returns empty partitions and an "Error accessing path" log, the shallow
stats return the error-marker object and an "Error getting stats" log, and
the traversal loop skips a failing folder — logging it — and continues with
the rest of the queue. -/
theorem remote_error_degraded :
    (∀ (path err : String) (max_items : Nat),
      list_folder_contents path (.error err) max_items =
        ⟨[], [], [], none, [errAccessMsg path err]⟩ ∧
      ∃ pre post : String, errAccessMsg path err = pre ++ path ++ post) ∧
    (∀ path err : String,
      get_folder_stats path (.error err) = (.error err, [errStatsMsg path err]) ∧
      ∃ pre post : String, errStatsMsg path err = pre ++ path ++ post) ∧
    (∀ (fuel : Nat) (s : DetailedStats) (qf : QFolder) (rest : List QFolder)
        (p : Nat) (logs : List String), qf.ok = false →
      detailedLoop (fuel + 1) s (qf :: rest) p logs =
        detailedLoop fuel s rest (p + 1) (logs ++ [errAccessMsg qf.path qf.errText])) := by
  refine ⟨?_, ?_, ?_⟩
  · intro path err max_items
    refine ⟨rfl, "Error accessing ", ": " ++ err, ?_⟩
    simp [errAccessMsg, String.append_assoc]
  · intro path err
    refine ⟨rfl, "Error getting stats for ", ": " ++ err, ?_⟩
    simp [errStatsMsg, String.append_assoc]
  · intro fuel s qf rest p logs h
    rw [detailedLoop, if_neg (by simp [h])]

/-- C9 witness: a concrete failing queue head is skipped, logged with its
path, and the loop continues on the remaining (here empty) queue. -/
theorem remote_error_degraded_witness :
    QFolder.ok ("/bad", "boom", false, ([] : List RemoteEntry)) = false ∧
    detailedLoop 5 detailedInit [("/bad", "boom", false, [])] 0 [] =
      detailedLoop 4 detailedInit [] 1 [errAccessMsg "/bad" "boom"] :=
  ⟨rfl, remote_error_degraded.2.2 4 detailedInit ("/bad", "boom", false, []) [] 0 [] rfl⟩

/-- Folder-or-file entries; everything else the remote returns is ignored by
the code. -/
def entryRelevant (e : RemoteEntry) : Bool := isFolder e || isFile e

theorem filter_isFolder_relevant (entries : List RemoteEntry) :
    (entries.filter entryRelevant).filter isFolder = entries.filter isFolder := by
  induction entries with
  | nil => rfl
  | cons e es ih =>
    cases e <;> simp [entryRelevant, isFolder, isFile, List.filter, ih]

theorem filter_isFile_relevant (entries : List RemoteEntry) :
    (entries.filter entryRelevant).filter isFile = entries.filter isFile := by
  induction entries with
  | nil => rfl
  | cons e es ih =>
    cases e <;> simp [entryRelevant, isFolder, isFile, List.filter, ih]

theorem foldl_pe_filter_relevant (entries : List RemoteEntry) :
    ∀ acc : DetailedStats × List QFolder,
      (entries.filter entryRelevant).foldl processEntry acc =
        entries.foldl processEntry acc := by
  induction entries with
  | nil => intro acc; rfl
  | cons e es ih =>
    intro acc
    cases e with
    | folder n p er ok cs => simp [entryRelevant, isFolder, List.filter, List.foldl_cons, ih]
    | file n p size => simp [entryRelevant, isFile, List.filter, List.foldl_cons, ih]
    | other =>
      have hrel : entryRelevant .other = false := rfl
      have hpe : processEntry acc RemoteEntry.other = acc := rfl
      simp [List.filter, hrel, List.foldl_cons, hpe, ih]

/-- C10: entries that are neither folders nor files change nothing anywhere:
listing, shallow stats and the traversal's listing step are invariant under
removing them, and every entry of the listing's partitions or displayed view
is a folder or a file. -/
theorem others_excluded :
    (∀ (path : String) (entries : List RemoteEntry) (max_items : Nat),
      list_folder_contents path (.ok (entries.filter entryRelevant)) max_items =
        list_folder_contents path (.ok entries) max_items) ∧
    (∀ (path : String) (entries : List RemoteEntry),
      get_folder_stats path (.ok (entries.filter entryRelevant)) =
        get_folder_stats path (.ok entries)) ∧
    (∀ (s : DetailedStats) (entries : List RemoteEntry),
      processListing s (entries.filter entryRelevant) = processListing s entries) ∧
    (∀ (path : String) (entries : List RemoteEntry) (max_items : Nat) (e : RemoteEntry),
      (e ∈ (list_folder_contents path (.ok entries) max_items).folders ∨
       e ∈ (list_folder_contents path (.ok entries) max_items).files ∨
       e ∈ (list_folder_contents path (.ok entries) max_items).shown) →
      entryRelevant e = true) := by
  refine ⟨?_, ?_, ?_, ?_⟩
  · intro path entries max_items
    simp only [list_folder_contents, filter_isFolder_relevant, filter_isFile_relevant]
  · intro path entries
    simp only [get_folder_stats, filter_isFolder_relevant, filter_isFile_relevant]
  · intro s entries
    simp only [processListing, foldl_pe_filter_relevant]
  · intro path entries max_items e hmem
    have hfo : ∀ x, x ∈ (entries.filter isFolder).mergeSort entryLe →
        entryRelevant x = true := by
      intro x hx
      have := List.mem_mergeSort.mp hx
      have := List.of_mem_filter this
      simp [entryRelevant, this]
    have hfi : ∀ x, x ∈ (entries.filter isFile).mergeSort entryLe →
        entryRelevant x = true := by
      intro x hx
      have := List.mem_mergeSort.mp hx
      have := List.of_mem_filter this
      simp [entryRelevant, this]
    simp only [list_folder_contents] at hmem
    rcases hmem with h | h | h
    · exact hfo e h
    · exact hfi e h
    · have := List.mem_of_mem_take h
      rcases List.mem_append.mp this with h2 | h2
      · exact hfo e h2
      · exact hfi e h2

/-- C10 witness: a concrete listing that contains an `other` entry next to a
file — the file is in the view and the theorem certifies its relevance. -/
theorem others_excluded_witness :
    ((RemoteEntry.file "a" "/a" 1) ∈ (list_folder_contents ""
        (.ok [RemoteEntry.other, RemoteEntry.file "a" "/a" 1]) 50).files) ∧
    entryRelevant (RemoteEntry.file "a" "/a" 1) = true := by
  have hmem : (RemoteEntry.file "a" "/a" 1) ∈ (list_folder_contents ""
      (.ok [RemoteEntry.other, RemoteEntry.file "a" "/a" 1]) 50).files := by
    simp [list_folder_contents, List.filter, isFile, isFolder]
  exact ⟨hmem, others_excluded.2.2.2 "" [RemoteEntry.other, RemoteEntry.file "a" "/a" 1] 50
    (RemoteEntry.file "a" "/a" 1) (Or.inr (Or.inl hmem))⟩

/-! ## The `cd ..` navigation defect -/

/-- C1: evaluating the `cd ..` step at the failing inputs. From the
one-level-deep path `/projects`, `os.path.dirname` yields `/` — not the root
sentinel `""` and not any folder's `path_lower` (all of which start with `/`
followed by a name) — contradicting the claim; at the root sentinel the
command is indeed a no-op, and from two levels deep it goes up one level.
Once at `/`, every further `cd ..` stays at `/`. -/
theorem cd_parent_bug :
    (cd_step "/projects" [] "..").current_path = "/" ∧
    ("/" : String) ≠ "" ∧
    (cd_step "" [] "..").current_path = "" ∧
    (cd_step "/a/b" [] "..").current_path = "/a" ∧
    dirnameStr "/" = "/" := by
  refine ⟨by decide, by decide, by decide, by decide, by decide⟩

end DropBoxCLI
